import Mathlib

/-!
Verification of `AbstractSustain.py` (pySuStaIn core engine).

Shallow embedding conventions:
* real arithmetic is embedded as exact rationals (`ℚ`);
* the pluggable abstract methods (`_optimise_parameters`,
  `_calculate_likelihood_stage`, `_perform_mcmc`, `_initialise_sequence`) are
  parameters of the embedded functions, as they are abstract in the source;
* transcendental functions (`np.log`, the square root inside `np.std`) are
  passed as explicit function parameters, since only the dataflow around them
  is at stake;
* float `NaN` is embedded as `Option ℚ` with `none` playing NaN where the
  claims are about NaN propagation;
* Python exceptions are embedded as `Except String`.
-/

namespace Sustain

/-- An EM state `(current_sequence, current_f, current_likelihood)` as threaded
through the loop of `_perform_em` (lines 647-693). -/
abbrev EMSt (σ φ : Type) := σ × φ × ℚ

/-- Line 672 of `_perform_em`:
`np.fabs((candidate_likelihood - current_likelihood) / max(candidate_likelihood, current_likelihood)) < 1e-6`.
When `max = 0` the float quotient is `nan` or `±inf`, for which the comparison
is `False`; that case is made explicit here. -/
def HASconverged (cand cur : ℚ) : Bool :=
  if max cand cur = 0 then false
  else decide (|(cand - cur) / max cand cur| < 1 / 1000000)

/-- One iteration of the `while` loop body of `_perform_em` (lines 666-680):
produce a candidate via the pluggable `_optimise_parameters`, terminate if
converged, otherwise adopt the candidate only when its likelihood strictly
exceeds the current one.  Returns the state recorded at this iteration and
the `terminate`-by-convergence flag. -/
def emStep (optimise : σ → φ → σ × φ × ℚ) (st : EMSt σ φ) : EMSt σ φ × Bool :=
  let cand := optimise st.1 st.2.1
  if HASconverged cand.2.2 st.2.2 then (st, true)
  else if st.2.2 < cand.2.2 then (cand, false)
  else (st, false)

/-- Convergence test at a given state: `HASconverged` applied to the candidate
that `_optimise_parameters` produces there. -/
def emConv (optimise : σ → φ → σ × φ × ℚ) (st : EMSt σ φ) : Bool :=
  HASconverged (optimise st.1 st.2.1).2.2 st.2.2

/-- The `while terminate == 0` loop of `_perform_em` (lines 666-688) with
`fuel` iterations remaining before the `iteration == (MaxIter - 1)` cutoff.
The returned list holds the state recorded into
`samples_sequence / samples_f / samples_likelihood` at each executed
iteration (lines 682-684); the pre-loop write at index 0 (lines 662-665) is
overwritten by the first iteration and so does not appear. -/
def emLoop (optimise : σ → φ → σ × φ × ℚ) : EMSt σ φ → ℕ → List (EMSt σ φ)
  | _, 0 => []
  | st, n + 1 =>
    if (emStep optimise st).2 then [(emStep optimise st).1]
    else if n = 0 then [(emStep optimise st).1]
    else (emStep optimise st).1 :: emLoop optimise (emStep optimise st).1 n

/-- `_perform_em` (lines 647-693): initial likelihood from
`_calculate_likelihood`, then the EM loop with `MaxIter = 100`; returns the
final `(ml_sequence, ml_f, ml_likelihood)` and the recorded trace. -/
def perform_em (calcLL : σ → φ → ℚ) (optimise : σ → φ → σ × φ × ℚ)
    (seq0 : σ) (f0 : φ) : EMSt σ φ × List (EMSt σ φ) :=
  let st0 : EMSt σ φ := (seq0, f0, calcLL seq0 f0)
  let trace := emLoop optimise st0 100
  (trace.getLastD st0, trace)

/-- A concrete pluggable optimiser used to witness `sustain_C3`: it always
proposes likelihood 2. -/
def emW : Unit → Unit → Unit × Unit × ℚ := fun _ _ => ((), (), (2 : ℚ))

/-- Python `max(list)` as used on likelihood arrays: fold of `max` over the
list (with the head as starting point; 0 on empty input, which the source
never hits). -/
def npMax (l : List ℚ) : ℚ := l.foldl max (l.headD 0)

/-- `np.argmax`: index of the first occurrence of the maximum value. -/
def npArgmax (l : List ℚ) : ℕ := l.findIdx (fun v => v == npMax l)

/-- `np.where(a == max(a))[0]`: the ascending list of all indices attaining
the maximum. -/
def whereEqMax (l : List ℚ) : List ℕ :=
  (List.range l.length).filter (fun i => l.getD i 0 == npMax l)

/-- `_calculate_likelihood` line 716: `f` reshaped to `(N_S, 1, 1)` and tiled
by `(1, N+1, M)` into shape `(N_S, N+1, M)`. -/
def tiled_f (M N NS : ℕ) (f : Fin NS → ℚ) : Fin NS → Fin (N + 1) → Fin M → ℚ :=
  fun s _ _ => f s

/-- `_calculate_likelihood` line 717: the tiled `f` transposed by `(2, 1, 0)`
into shape `(M, N+1, N_S)`. -/
def f_val_mat (M N NS : ℕ) (f : Fin NS → ℚ) : Fin M → Fin (N + 1) → Fin NS → ℚ :=
  fun m j s => tiled_f M N NS f s j m

/-- `_calculate_likelihood` lines 719-722: the `M × (N+1) × N_S` tensor
`p_perm_k`, one slice per subtype from the pluggable
`_calculate_likelihood_stage`. -/
def p_perm_k (M N NS : ℕ) (calcStage : Fin NS → Fin M → Fin (N + 1) → ℚ) :
    Fin M → Fin (N + 1) → Fin NS → ℚ :=
  fun m j s => calcStage s m j

/-- Line 725: `np.squeeze(np.sum(p_perm_k * f_val_mat, 1))` — per-subject,
per-subtype total probability (sum over the stage axis). -/
def total_prob_cluster (M N NS : ℕ) (calcStage : Fin NS → Fin M → Fin (N + 1) → ℚ)
    (f : Fin NS → ℚ) : Fin M → Fin NS → ℚ :=
  fun m s => ∑ j, p_perm_k M N NS calcStage m j s * f_val_mat M N NS f m j s

/-- Line 726: `np.sum(p_perm_k * f_val_mat, 2)` — per-subject, per-stage total
probability (sum over the subtype axis). -/
def total_prob_stage (M N NS : ℕ) (calcStage : Fin NS → Fin M → Fin (N + 1) → ℚ)
    (f : Fin NS → ℚ) : Fin M → Fin (N + 1) → ℚ :=
  fun m j => ∑ s, p_perm_k M N NS calcStage m j s * f_val_mat M N NS f m j s

/-- Line 727: `np.sum(total_prob_stage, 1)` — per-subject total probability. -/
def total_prob_subj (M N NS : ℕ) (calcStage : Fin NS → Fin M → Fin (N + 1) → ℚ)
    (f : Fin NS → ℚ) : Fin M → ℚ :=
  fun m => ∑ j, total_prob_stage M N NS calcStage f m j

/-- Line 729: `sum(np.log(total_prob_subj + 1e-250))`; the logarithm is the
pluggable parameter `log`. -/
def loglike (log : ℚ → ℚ) (M N NS : ℕ) (calcStage : Fin NS → Fin M → Fin (N + 1) → ℚ)
    (f : Fin NS → ℚ) : ℚ :=
  ∑ m, log (total_prob_subj M N NS calcStage f m + 1 / 10 ^ 250)

/-- `_calculate_likelihood` (lines 695-731): returns
`(loglike, total_prob_subj, total_prob_stage, total_prob_cluster, p_perm_k)`,
parameterized by the pluggable `_calculate_likelihood_stage` (`calcStage`)
and the logarithm. -/
def calculate_likelihood (log : ℚ → ℚ) (M N NS : ℕ)
    (calcStage : Fin NS → Fin M → Fin (N + 1) → ℚ) (f : Fin NS → ℚ) :
    ℚ × (Fin M → ℚ) × (Fin M → Fin (N + 1) → ℚ) × (Fin M → Fin NS → ℚ) ×
      (Fin M → Fin (N + 1) → Fin NS → ℚ) :=
  (loglike log M N NS calcStage f, total_prob_subj M N NS calcStage f,
    total_prob_stage M N NS calcStage f, total_prob_cluster M N NS calcStage f,
    p_perm_k M N NS calcStage)

/-- `_find_ml_mixture2` lines 527-529: `temp_N_cluster = np.zeros(N_S)` is
overwritten — not indexed into — on each pass of
`for s in range(1, N_S + 1): temp_N_cluster = np.sum((cluster_assignment == s).astype(int), 0)`,
so after the loop it holds only the count for the last cluster label
(`N_S = 2`). -/
def temp_N_cluster (assignment : List ℕ) : ℕ :=
  (List.range' 1 2).foldl (fun _ s => assignment.countP (fun x => x == s)) 0

/-- Line 530: `min_N_cluster = min([temp_N_cluster])` — the minimum of the
singleton list holding the scalar `temp_N_cluster`. -/
def min_N_cluster (assignment : List ℕ) : ℕ :=
  ([temp_N_cluster assignment].min?).getD 0

/-- The guard of the redraw loop `while min_N_cluster == 0` (line 523): an
assignment is accepted (the loop exits) exactly when `min_N_cluster ≠ 0`. -/
def redrawAccept (assignment : List ℕ) : Bool := min_N_cluster assignment != 0

/-- The per-subtype-count loop body of `run_sustain_algorithm`
(lines 74-159), abstracted over everything one iteration computes: `step`
maps the carried state (`ml_sequence_prev_EM`, `ml_f_prev_EM`) and the
subtype index `s` to the next carried state and the iteration's result
bundle (`samples_sequence`, `samples_f`, `ml_subtype`, `prob_ml_subtype`,
`ml_stage`, `prob_ml_stage`), which is also pickled and plotted.  Returns
the final carried state and the list of per-`s` result bundles. -/
def run_sustain_loop {St R : Type} (step : St → ℕ → St × R) (st0 : St) (n : ℕ) :
    St × List R :=
  (List.range n).foldl
    (fun acc s => ((step acc.1 s).1, acc.2 ++ [(step acc.1 s).2])) (st0, [])

/-- `run_sustain_algorithm` (lines 67-166): after the loop over
`s in range(N_S_max)`, the variables still bound from the last iteration are
returned (line 166); `none` models the `NameError` of a run with
`N_S_max = 0`. -/
def run_sustain_algorithm {St R : Type} (step : St → ℕ → St × R) (st0 : St)
    (NSmax : ℕ) : Option R :=
  (run_sustain_loop step st0 NSmax).2.getLast?

/-- Python `dict` assignment `d[k] = v` on an association list: overwrite in
place if the key exists, append otherwise. -/
def dictInsert {α : Type} (d : List (String × α)) (k : String) (v : α) :
    List (String × α) :=
  if (d.lookup k).isSome then d.map (fun kv => if kv.1 = k then (k, v) else kv)
  else d ++ [(k, v)]

/-- The `save_variables` payload built by `cross_validate_sustain_model`
(lines 252-267).  Line 258 re-binds `save_variables = {}`, discarding the
four `ml_*` entries assigned on lines 253-256; only the four `samples_*`
entries reach the pickle. -/
def cvSaveVariables {α : Type} (mlSeq mlSeqPrev mlF mlFPrev sSeq sF sLik sLikTest : α) :
    List (String × α) :=
  let sv0 : List (String × α) := []
  let sv1 := dictInsert sv0 "ml_sequence_EM" mlSeq
  let sv2 := dictInsert sv1 "ml_sequence_prev_EM" mlSeqPrev
  let sv3 := dictInsert sv2 "ml_f_EM" mlF
  let _sv4 := dictInsert sv3 "ml_f_prev_EM" mlFPrev
  let sv5 : List (String × α) := []
  let sv6 := dictInsert sv5 "samples_sequence" sSeq
  let sv7 := dictInsert sv6 "samples_f" sF
  let sv8 := dictInsert sv7 "samples_likelihood" sLik
  let sv9 := dictInsert sv8 "samples_likelihood_subj_test" sLikTest
  sv9

/-- `loaded_variables["key"]`: a missing key raises `KeyError`. -/
def dictGet {α : Type} (payload : List (String × α)) (k : String) : Except String α :=
  match payload.lookup k with
  | some v => Except.ok v
  | none => Except.error ("KeyError: " ++ k)

/-- The load path of `cross_validate_sustain_model` (lines 203-220): the
eight keys read from a found checkpoint, in source order. -/
def cvLoadCheckpoint {α : Type} (payload : List (String × α)) :
    Except String (α × α × α × α × α × α × α × α) := do
  let mlSeq ← dictGet payload "ml_sequence_EM"
  let mlSeqPrev ← dictGet payload "ml_sequence_prev_EM"
  let mlF ← dictGet payload "ml_f_EM"
  let mlFPrev ← dictGet payload "ml_f_prev_EM"
  let sLik ← dictGet payload "samples_likelihood"
  let sSeq ← dictGet payload "samples_sequence"
  let sF ← dictGet payload "samples_f"
  let sLikTest ← dictGet payload "samples_likelihood_subj_test"
  return (mlSeq, mlSeqPrev, mlF, mlFPrev, sLik, sSeq, sF, sLikTest)

/-- `np.sum(np.isnan(row)) == 0` negated: whether a row of the averaged
posterior holds a NaN (`none`). -/
def rowHasNaN (row : List (Option ℚ)) : Bool := row.any (fun v => v.isNone)

/-- Python `int()` on a float that holds an integral value: truncation toward
zero (`Int` division of numerator by denominator). -/
def pyInt (q : ℚ) : ℤ := q.num / q.den

/-- The per-subject body of the assignment loop of
`subtype_and_stage_individuals` (lines 330-353), for one subject:
`row` is the subject's averaged subtype posterior `prob_subtype[i, :]` and
`stageMat` its averaged joint posterior `prob_subtype_stage[i, :, :]`
(stage-major).  Mirrors the source exactly: outputs start as NaN
(lines 325-328); the subtype block runs only when the subtype posterior has
no NaN (line 333), with `np.where`-ties resolved to the first index via the
`try/except` pair (lines 336-346) and the literal `size == 1 and == 1`
special case (line 340); line 348 `int(ml_subtype[i])` raises `ValueError`
when `ml_subtype[i]` is still NaN; the stage block (lines 349-352) runs only
when the selected stage column has no NaN. -/
def assignOne (row : List (Option ℚ)) (stageMat : List (List (Option ℚ))) :
    Except String (Option ℚ × Option ℚ × Option ℚ × Option ℚ) :=
  let vals := row.reduceOption
  let subAssign : Option ℚ × Option ℚ :=
    if rowHasNaN row then (none, none)
    else
      let idx := npArgmax vals
      let p : ℚ := if row.length = 1 ∧ vals.getD 0 0 = 1 then 1 else vals.getD idx 0
      (some (idx : ℚ), some p)
  match subAssign.1 with
  | none => Except.error "ValueError: cannot convert float NaN to integer"
  | some q =>
    let k := (pyInt q).toNat
    let col := stageMat.map (fun r2 => r2.getD k none)
    if rowHasNaN col then Except.ok (subAssign.1, subAssign.2, none, none)
    else
      let w := col.reduceOption
      let sIdx := npArgmax w
      Except.ok (subAssign.1, subAssign.2, some (sIdx : ℚ), some (w.getD sIdx 0))

/-- The assignment half of `subtype_and_stage_individuals` (lines 325-354),
taking the averaged posteriors produced by the first half as inputs and
processing subjects in order; a raised exception aborts the call. -/
def subtype_stage_assign (probSubtype : List (List (Option ℚ)))
    (probSubtypeStage : List (List (List (Option ℚ)))) :
    Except String (List (Option ℚ × Option ℚ × Option ℚ × Option ℚ)) :=
  (probSubtype.zip probSubtypeStage).mapM (fun pr => assignOne pr.1 pr.2)

/-- `_estimate_ml_sustain_model_nplus1_clusters` lines 393-399: each subject
is hard-assigned `np.argmax(p_sequence_norm[m, :]) + 1`. -/
def ml_cluster_subj (pSeqNorm : List (List ℚ)) : List ℕ :=
  pSeqNorm.map (fun row => npArgmax row + 1)

/-- Line 403: `this_N_cluster = sum(ml_cluster_subj == int(ix_cluster_split + 1))`
— the number of subjects hard-assigned to previous subtype `k` (label `k+1`). -/
def this_N_cluster (pSeqNorm : List (List ℚ)) (k : ℕ) : ℕ :=
  (ml_cluster_subj pSeqNorm).countP (fun x => x == k + 1)

/-- Lines 439-445: adopt a split candidate's result when its likelihood
strictly exceeds the best so far (which starts at `-np.inf`, embedded as
`⊥ : WithBot ℚ`). -/
def updateBest {π : Type} (acc : WithBot ℚ × Option π) (c : ℚ × π) :
    WithBot ℚ × Option π :=
  if acc.1 < (c.1 : WithBot ℚ) then ((c.1 : WithBot ℚ), some c.2) else acc

/-- The split-candidate loop of `_estimate_ml_sustain_model_nplus1_clusters`
(lines 401-448): for each previous subtype `k`, the split is attempted only
when `this_N_cluster > 1` (line 405); `evalSplit k` abstracts lines 407-446
(the two-cluster fit of subtype `k`'s subjects and the subsequent full
mixture fit), returning that branch's `this_ml_likelihood[0]` and result
payload.  Also returns the list of subtype indices actually evaluated. -/
def growSplitLoop {π : Type} (counts : ℕ → ℕ) (evalSplit : ℕ → ℚ × π) (nPrev : ℕ) :
    (WithBot ℚ × Option π) × List ℕ :=
  (List.range nPrev).foldl
    (fun acc k =>
      if 1 < counts k then (updateBest acc.1 (evalSplit k), acc.2 ++ [k])
      else acc)
    ((⊥, none), [])

/-- The per-startpoint result matrix filled by the `while terminate == 0`
loops of `_find_ml` (lines 470-489), `_find_ml_mixture2` (lines 518-559) and
`_find_ml_mixture` (lines 622-635): slot `startpoint` holds that startpoint's
`_perform_em` outcome `(ml_sequence, ml_f, ml_likelihood)`, abstracted as
`r startpoint`. -/
def startpointMat {σ φ : Type} (r : ℕ → σ × φ × ℚ) (K : ℕ) : List (σ × φ × ℚ) :=
  (List.range K).map r

/-- `ml_likelihood_mat`: the per-startpoint likelihoods. -/
def startpointLLs {σ φ : Type} (r : ℕ → σ × φ × ℚ) (K : ℕ) : List ℚ :=
  (startpointMat r K).map (fun x => x.2.2)

/-- `_find_ml` lines 491-494: `ix = np.argmax(ml_likelihood_mat)` (first
index of the maximum), then the mats indexed at `ix`. -/
def find_ml {σ φ : Type} (r : ℕ → σ × φ × ℚ) (K : ℕ) : σ × φ × ℚ :=
  (startpointMat r K).getD (npArgmax (startpointLLs r K)) (r 0)

/-- `_find_ml_mixture2` lines 561-571:
`ix = [np.where(ml_likelihood_mat == max(ml_likelihood_mat))[0][0]]` — the
first index attaining the maximum — then the mats indexed at `ix`. -/
def find_ml_mixture2 {σ φ : Type} (r : ℕ → σ × φ × ℚ) (K : ℕ) : σ × φ × ℚ :=
  (startpointMat r K).getD ((whereEqMax (startpointLLs r K)).headD 0) (r 0)

/-- `_find_ml_mixture` lines 637-642:
`ix = np.where(ml_likelihood_mat == max(ml_likelihood_mat)); ix = ix[0]` —
the array of ALL row indices attaining the maximum — then the mats indexed by
that whole array, so the returned `ml_sequence`/`ml_f`/`ml_likelihood` stack
one entry per tied startpoint. -/
def find_ml_mixture {σ φ : Type} (r : ℕ → σ × φ × ℚ) (K : ℕ) : List (σ × φ × ℚ) :=
  (whereEqMax (startpointLLs r K)).map (fun i => (startpointMat r K).getD i (r 0))

/-- `_optimise_mcmc_settings` lines 790-793: the inverse-permutation scatter
`temp_inv = np.array([0]*N); temp_inv[temp_seq.astype(int)] = np.arange(N)`
— start from zeros, write position `i` at index `temp_seq[i]` for
`i = 0..N-1`, later writes winning on duplicate indices. -/
def scatterInv (Nst : ℕ) (row : ℕ → ℕ) : ℕ → ℕ :=
  (List.range Nst).foldl (fun acc i => fun j => if j = row i then i else acc j)
    (fun _ => 0)

/-- `np.std(xs, ddof=1)`: Bessel-corrected sample standard deviation, with the
square root abstracted as an explicit parameter. -/
def besselStd (sqrt : ℚ → ℚ) (xs : List ℚ) : ℚ :=
  sqrt (((xs.map (fun x => (x - xs.sum / (xs.length : ℚ)) ^ 2)).sum)
    / ((xs.length : ℚ) - 1))

/-- One tuning pass of `_optimise_mcmc_settings` (lines 778-798): run the
pluggable `_perform_mcmc` for `int(1e4) = 10000` exploratory steps at the
current scales; recompute the sequence scale as the Bessel-corrected standard
deviation across draws of each stage's inverse-permutation position per
subtype, flooring every entry below 0.01 at exactly 0.01 (line 796); and the
fraction scale as the Bessel-corrected standard deviation of the sampled
fractions per subtype (no floor).  The sequence samples hold stage indices
(`astype(int)`), embedded ℕ-valued; `mcmc n seqSigma fSigma` returns the
abstract `(ml-triple, samples_sequence, samples_f, samples_likelihood)`. -/
def tunePass {α β : Type} (sqrt : ℚ → ℚ) (Nst : ℕ)
    (mcmc : ℕ → (ℕ → ℕ → ℚ) → (ℕ → ℚ) → α × (ℕ → ℕ → ℕ → ℕ) × (ℕ → ℕ → ℚ) × β)
    (sig : (ℕ → ℕ → ℚ) × (ℕ → ℚ)) : (ℕ → ℕ → ℚ) × (ℕ → ℚ) :=
  (fun s j =>
      let v := besselStd sqrt ((List.range 10000).map
        (fun t => ((scatterInv Nst (fun i => (mcmc 10000 sig.1 sig.2).2.1 s i t) j : ℕ) : ℚ)))
      if v < 1 / 100 then 1 / 100 else v,
    fun s => besselStd sqrt ((List.range 10000).map
      (fun t => (mcmc 10000 sig.1 sig.2).2.2.1 s t)))

/-- `_optimise_mcmc_settings` (lines 766-803): `n_passes_optimisation = 3`
tuning passes starting from the scalar scales `seq_sigma = 1`,
`f_sigma = 0.01` (broadcast as constant arrays); the scales recomputed by the
final pass are returned. -/
def optimise_mcmc_settings {α β : Type} (sqrt : ℚ → ℚ) (Nst : ℕ)
    (mcmc : ℕ → (ℕ → ℕ → ℚ) → (ℕ → ℚ) → α × (ℕ → ℕ → ℕ → ℕ) × (ℕ → ℕ → ℚ) × β) :
    (ℕ → ℕ → ℚ) × (ℕ → ℚ) :=
  (List.range 3).foldl (fun sig _ => tunePass sqrt Nst mcmc sig)
    (fun _ _ => 1, fun _ => 1 / 100)

/-- `_estimate_uncertainty_sustain_model` (lines 733-764): tune the proposal
scales, then run the production chain of `N_iterations_MCMC` steps at the
tuned scales. -/
def estimate_uncertainty_sustain_model {α β : Type} (sqrt : ℚ → ℚ) (Nst : ℕ)
    (mcmc : ℕ → (ℕ → ℕ → ℚ) → (ℕ → ℚ) → α × (ℕ → ℕ → ℕ → ℕ) × (ℕ → ℕ → ℚ) × β)
    (NMCMC : ℕ) : α × (ℕ → ℕ → ℕ → ℕ) × (ℕ → ℕ → ℚ) × β :=
  mcmc NMCMC (optimise_mcmc_settings sqrt Nst mcmc).1
    (optimise_mcmc_settings sqrt Nst mcmc).2

-- ### THEOREMS

theorem emStep_ll_le (optimise : σ → φ → σ × φ × ℚ) (st : EMSt σ φ) :
    st.2.2 ≤ (emStep optimise st).1.2.2 := by
  unfold emStep
  by_cases h1 : HASconverged (optimise st.1 st.2.1).2.2 st.2.2
  · simp [h1]
  · by_cases h2 : st.2.2 < (optimise st.1 st.2.1).2.2
    · simpa [h1, h2] using le_of_lt h2
    · simp [h1, h2]

theorem emLoop_ll_chain (optimise : σ → φ → σ × φ × ℚ) (st : EMSt σ φ) (n : ℕ) :
    List.Chain' (fun a b : EMSt σ φ => a.2.2 ≤ b.2.2) (st :: emLoop optimise st n) := by
  induction n generalizing st with
  | zero => simp [emLoop]
  | succ m ih =>
    unfold emLoop
    by_cases h1 : (emStep optimise st).2 = true
    · simp only [h1, if_true]
      exact List.chain'_pair.mpr (emStep_ll_le optimise st)
    · by_cases h2 : m = 0
      · simp only [h1, h2, if_true, if_false]
        exact List.chain'_pair.mpr (emStep_ll_le optimise st)
      · simp only [h1, h2, Bool.false_eq_true, if_false]
        rw [List.chain'_cons]
        exact ⟨emStep_ll_le optimise st, ih (emStep optimise st).1⟩

theorem emStep_snd (optimise : σ → φ → σ × φ × ℚ) (st : EMSt σ φ) :
    (emStep optimise st).2 = emConv optimise st := by
  unfold emStep emConv
  by_cases h1 : HASconverged (optimise st.1 st.2.1).2.2 st.2.2
  · simp [h1]
  · by_cases h2 : st.2.2 < (optimise st.1 st.2.1).2.2 <;> simp [h1, h2]

theorem getD_congr_default {α : Type} {l : List α} {n : ℕ} (h : n < l.length) (d d' : α) :
    l.getD n d = l.getD n d' := by
  rw [List.getD_eq_getElem l d h, List.getD_eq_getElem l d' h]

/-- C1: in `_perform_em`, the candidate produced by `_optimise_parameters` is
adopted only when its likelihood strictly exceeds the current one (otherwise
the `(sequence, fraction, likelihood)` state is unchanged for that step), and
the likelihood trace recorded in `samples_likelihood` over the iterations
actually executed is non-decreasing. -/
theorem sustain_C1 (σ φ : Type) (optimise : σ → φ → σ × φ × ℚ) (st : EMSt σ φ) :
    (∀ s : EMSt σ φ, (optimise s.1 s.2.1).2.2 ≤ s.2.2 → (emStep optimise s).1 = s) ∧
    List.Chain' (· ≤ ·) ((emLoop optimise st 100).map (fun s : EMSt σ φ => s.2.2)) := by
  constructor
  · intro s h
    unfold emStep
    by_cases h1 : HASconverged (optimise s.1 s.2.1).2.2 s.2.2
    · simp [h1]
    · have h2 : ¬ s.2.2 < (optimise s.1 s.2.1).2.2 := not_lt.mpr h
      simp [h1, h2]
  · exact List.chain'_map_of_chain' (fun s : EMSt σ φ => s.2.2) (fun _ _ hab => hab)
      (List.chain'_cons'.mp (emLoop_ll_chain optimise st 100)).2

/-- Witness for `sustain_C1`: a concrete non-improving candidate (likelihood 0
against current likelihood 1) leaves the state unchanged. -/
theorem sustain_C1_witness :
    (emStep (fun (_ : Unit) (_ : Unit) => ((), (), (0 : ℚ))) ((), (), (1 : ℚ))).1
      = ((), (), (1 : ℚ)) :=
  (sustain_C1 Unit Unit (fun _ _ => ((), (), (0 : ℚ))) ((), (), (1 : ℚ))).1
    ((), (), (1 : ℚ)) (by norm_num)

theorem emLoop_succ' (optimise : σ → φ → σ × φ × ℚ) (st : EMSt σ φ) (m : ℕ) :
    emLoop optimise st (m + 1)
      = if (emStep optimise st).2 then [(emStep optimise st).1]
        else if m = 0 then [(emStep optimise st).1]
        else (emStep optimise st).1 :: emLoop optimise (emStep optimise st).1 m := rfl

theorem emLoop_term_spec (optimise : σ → φ → σ × φ × ℚ) (st : EMSt σ φ) (n : ℕ) :
    1 ≤ (emLoop optimise st (n + 1)).length ∧
    (emLoop optimise st (n + 1)).length ≤ n + 1 ∧
    (∀ k, k + 1 < (emLoop optimise st (n + 1)).length →
        emConv optimise ((st :: emLoop optimise st (n + 1)).getD k st) = false) ∧
    ((emLoop optimise st (n + 1)).length < n + 1 →
        emConv optimise
          ((st :: emLoop optimise st (n + 1)).getD
            ((emLoop optimise st (n + 1)).length - 1) st) = true) := by
  induction n generalizing st with
  | zero =>
    have hL : emLoop optimise st (0 + 1) = [(emStep optimise st).1] := by
      rw [emLoop_succ']
      simp
    have hlen : (emLoop optimise st (0 + 1)).length = 1 := by rw [hL]; rfl
    refine ⟨by omega, by omega, ?_, ?_⟩
    · intro k hk
      omega
    · intro h
      omega
  | succ m ih =>
    by_cases h1 : (emStep optimise st).2 = true
    · have hL : emLoop optimise st (m + 1 + 1) = [(emStep optimise st).1] := by
        rw [emLoop_succ', if_pos h1]
      have hlen : (emLoop optimise st (m + 1 + 1)).length = 1 := by rw [hL]; rfl
      have hconv : emConv optimise st = true := by rw [← emStep_snd optimise st]; exact h1
      refine ⟨by omega, by omega, ?_, ?_⟩
      · intro k hk
        omega
      · intro _
        rw [hL]
        simpa using hconv
    · have hL : emLoop optimise st (m + 1 + 1)
          = (emStep optimise st).1 :: emLoop optimise (emStep optimise st).1 (m + 1) := by
        rw [emLoop_succ', if_neg h1]
        simp
      obtain ⟨ih1, ih2, ih3, ih4⟩ := ih (emStep optimise st).1
      have hlen : (emLoop optimise st (m + 1 + 1)).length
          = (emLoop optimise (emStep optimise st).1 (m + 1)).length + 1 := by rw [hL]; rfl
      have hnconv : emConv optimise st = false := by
        rw [← emStep_snd optimise st]
        revert h1
        cases (emStep optimise st).2 <;> simp
      refine ⟨by omega, by omega, ?_, ?_⟩
      · intro k hk
        match k with
        | 0 => exact hnconv
        | j + 1 =>
          have hk' : j + 1 < (emLoop optimise (emStep optimise st).1 (m + 1)).length := by omega
          have hrange : j < ((emStep optimise st).1
              :: emLoop optimise (emStep optimise st).1 (m + 1)).length := by
            simp only [List.length_cons]
            omega
          have step1 : (st :: emLoop optimise st (m + 1 + 1)).getD (j + 1) st
              = ((emStep optimise st).1
                  :: emLoop optimise (emStep optimise st).1 (m + 1)).getD j st := by
            rw [hL]
            exact List.getD_cons_succ
          rw [step1, getD_congr_default hrange st (emStep optimise st).1]
          exact ih3 j hk'
      · intro hless
        have hlen' : (emLoop optimise (emStep optimise st).1 (m + 1)).length < m + 1 := by omega
        have h4 := ih4 hlen'
        obtain ⟨j, hj⟩ : ∃ j, (emLoop optimise (emStep optimise st).1 (m + 1)).length = j + 1 :=
          ⟨(emLoop optimise (emStep optimise st).1 (m + 1)).length - 1, by omega⟩
        have hrange : j < ((emStep optimise st).1
            :: emLoop optimise (emStep optimise st).1 (m + 1)).length := by
          simp only [List.length_cons]
          omega
        have hidx : (emLoop optimise st (m + 1 + 1)).length - 1 = j + 1 := by omega
        rw [hidx]
        have step1 : (st :: emLoop optimise st (m + 1 + 1)).getD (j + 1) st
            = ((emStep optimise st).1
                :: emLoop optimise (emStep optimise st).1 (m + 1)).getD j st := by
          rw [hL]
          exact List.getD_cons_succ
        rw [step1, getD_congr_default hrange st (emStep optimise st).1]
        rw [hj] at h4
        exact h4

/-- C3: the `_perform_em` loop executes at least one and at most
`MaxIter = 100` candidate-producing iterations; no iteration before the last
one satisfied the relative-improvement convergence test
`np.fabs((ll_cand - ll_cur)/max(ll_cand, ll_cur)) < 1e-6` (embedded as
`emConv`), and whenever fewer than 100 iterations were executed, the last
executed iteration did satisfy it — i.e. the loop stops at whichever of the
two conditions is met first. -/
theorem sustain_C3 (σ φ : Type) (optimise : σ → φ → σ × φ × ℚ) (st : EMSt σ φ) :
    1 ≤ (emLoop optimise st 100).length ∧
    (emLoop optimise st 100).length ≤ 100 ∧
    (∀ k, k + 1 < (emLoop optimise st 100).length →
        emConv optimise ((st :: emLoop optimise st 100).getD k st) = false) ∧
    ((emLoop optimise st 100).length < 100 →
        emConv optimise
          ((st :: emLoop optimise st 100).getD
            ((emLoop optimise st 100).length - 1) st) = true) :=
  emLoop_term_spec optimise st 99

theorem HASconverged_two_one : HASconverged 2 1 = false := by
  rw [HASconverged]
  have hm : max (2 : ℚ) 1 = 2 := max_eq_left (by norm_num)
  rw [hm, if_neg (by norm_num : ¬(2 : ℚ) = 0)]
  rw [show |((2 : ℚ) - 1) / 2| = 1 / 2 from by rw [abs_of_nonneg] <;> norm_num]
  simp only [decide_eq_false_iff_not]
  norm_num

theorem HASconverged_two_two : HASconverged 2 2 = true := by
  rw [HASconverged]
  have hm : max (2 : ℚ) 2 = 2 := max_self 2
  rw [hm]
  norm_num

theorem emStepW_one : emStep emW ((), (), (1 : ℚ)) = (((), (), 2), false) := by
  rw [emStep]
  simp [emW, HASconverged_two_one]

theorem emStepW_two : emStep emW ((), (), (2 : ℚ)) = (((), (), 2), true) := by
  rw [emStep]
  simp [emW, HASconverged_two_two]

theorem emLoopW : emLoop emW ((), (), (1 : ℚ)) 100 = [((), (), 2), ((), (), 2)] := by
  have t2 : emLoop emW ((), (), (2 : ℚ)) 99 = [((), (), 2)] := by
    rw [show (99 : ℕ) = 98 + 1 from rfl, emLoop_succ', emStepW_two]
    simp
  rw [show (100 : ℕ) = 99 + 1 from rfl, emLoop_succ', emStepW_one]
  simp [t2]

theorem emLoopW_len : (emLoop emW ((), (), (1 : ℚ)) 100).length = 2 := by
  rw [emLoopW]
  rfl

/-- Witness for `sustain_C3`: with the optimiser `emW` (constant candidate
likelihood 2) from initial likelihood 1, the first iteration improves and the
second converges, so the loop executes 2 < 100 iterations; both hypotheses of
`sustain_C3` are discharged on this concrete run. -/
theorem sustain_C3_witness :
    emConv emW (((((), (), (1 : ℚ)) : EMSt Unit Unit)
        :: emLoop emW ((), (), (1 : ℚ)) 100).getD 0 ((), (), (1 : ℚ))) = false ∧
    emConv emW (((((), (), (1 : ℚ)) : EMSt Unit Unit)
        :: emLoop emW ((), (), (1 : ℚ)) 100).getD
          ((emLoop emW ((), (), (1 : ℚ)) 100).length - 1) ((), (), (1 : ℚ))) = true :=
  ⟨(sustain_C3 Unit Unit emW ((), (), (1 : ℚ))).2.2.1 0 (by rw [emLoopW_len]; norm_num),
   (sustain_C3 Unit Unit emW ((), (), (1 : ℚ))).2.2.2 (by rw [emLoopW_len]; norm_num)⟩

/-- C2: `_calculate_likelihood` returns a per-subject-per-subtype total equal
to the sum over stages of stage probability times that subtype's mixture
weight, and a total log-likelihood equal to the sum over subjects of
`log(per-subject total + 1e-250)`, where the per-subject total is the sum
over all stages and subtypes of the weighted stage probabilities (in either
nesting order). -/
theorem sustain_C2 (M N NS : ℕ) (log : ℚ → ℚ)
    (calcStage : Fin NS → Fin M → Fin (N + 1) → ℚ) (f : Fin NS → ℚ) :
    (∀ m s, (calculate_likelihood log M N NS calcStage f).2.2.2.1 m s
        = ∑ j, calcStage s m j * f s) ∧
    ((calculate_likelihood log M N NS calcStage f).1
        = ∑ m, log ((∑ j, ∑ s, calcStage s m j * f s) + 1 / 10 ^ 250)) ∧
    (∀ m, (calculate_likelihood log M N NS calcStage f).2.1 m
        = ∑ j, ∑ s, calcStage s m j * f s) ∧
    (∀ m, (calculate_likelihood log M N NS calcStage f).2.1 m
        = ∑ s, ∑ j, calcStage s m j * f s) := by
  refine ⟨fun m s => rfl, rfl, fun m => rfl, fun m => ?_⟩
  show (∑ j, ∑ s, calcStage s m j * f s) = ∑ s, ∑ j, calcStage s m j * f s
  exact Finset.sum_comm

/-- C9: the redraw-acceptance test of `_find_ml_mixture2`'s random binary
initialization inspects only the last-computed per-cluster count — the count
of cluster 2 — so an assignment is accepted iff cluster 2 is non-empty,
regardless of cluster 1; in particular the assignment `[2, 2]` (both
subjects in cluster 2, cluster 1 empty) is accepted. -/
theorem sustain_C9 :
    (∀ assignment : List ℕ,
        redrawAccept assignment = (assignment.countP (fun x => x == 2) != 0)) ∧
    redrawAccept [2, 2] = true ∧ ([2, 2] : List ℕ).countP (fun x => x == 1) = 0 := by
  refine ⟨fun assignment => ?_, by decide, by decide⟩
  rfl

/-- C10: `run_sustain_algorithm` returns exactly the result bundle computed
for the final subtype count `s = N_S_max - 1`; the bundles of all smaller
subtype counts are produced during the loop (the returned trace has one entry
per subtype count) but do not appear in the return value. -/
theorem sustain_C10 (St R : Type) (step : St → ℕ → St × R) (st0 : St) (n : ℕ) :
    (run_sustain_loop step st0 (n + 1)).2.length = n + 1 ∧
    run_sustain_algorithm step st0 (n + 1)
      = some ((step (run_sustain_loop step st0 n).1 n).2) := by
  have hunfold : ∀ m : ℕ, run_sustain_loop step st0 (m + 1)
      = ((step (run_sustain_loop step st0 m).1 m).1,
          (run_sustain_loop step st0 m).2 ++ [(step (run_sustain_loop step st0 m).1 m).2]) := by
    intro m
    unfold run_sustain_loop
    rw [List.range_succ, List.foldl_append]
    rfl
  have hlen : ∀ m : ℕ, (run_sustain_loop step st0 m).2.length = m := by
    intro m
    induction m with
    | zero => rfl
    | succ k ihk =>
      rw [hunfold k]
      simp [ihk]
  refine ⟨hlen (n + 1), ?_⟩
  unfold run_sustain_algorithm
  rw [hunfold n]
  simp

/-- C8 (refuting the claim; the code contradicts its evident intent): the
checkpoint payload written by `cross_validate_sustain_model` holds only the
four `samples_*` keys, because line 258 re-creates the dict and discards the
four `ml_*` entries assigned just before; the load path's very first read,
`loaded_variables["ml_sequence_EM"]`, therefore raises `KeyError`, so the
save-then-load round trip never restores the fold's state. -/
theorem sustain_C8_bug (α : Type) (v1 v2 v3 v4 v5 v6 v7 v8 : α) :
    cvLoadCheckpoint (cvSaveVariables v1 v2 v3 v4 v5 v6 v7 v8)
      = Except.error "KeyError: ml_sequence_EM" ∧
    (cvSaveVariables v1 v2 v3 v4 v5 v6 v7 v8).map Prod.fst
      = ["samples_sequence", "samples_f", "samples_likelihood",
         "samples_likelihood_subj_test"] :=
  ⟨rfl, rfl⟩

/-- C6 (refuting the claim; the code contradicts the spec's thrice-stated
intent): a subject whose averaged subtype posterior contains NaN reaches
line 348 with `ml_subtype[i]` still NaN, and `int(NaN)` raises `ValueError`
instead of returning NaN entries; only a NaN confined to the stage posterior
yields the claimed NaN outputs with a normal return (second conjunct, where
`ml_subtype` is moreover a number, not NaN). -/
theorem sustain_C6_bug :
    subtype_stage_assign [[none, some (1 : ℚ)]]
        [[[some (1 : ℚ), some (1 : ℚ)], [some (1 : ℚ), some (1 : ℚ)]]]
      = Except.error "ValueError: cannot convert float NaN to integer" ∧
    subtype_stage_assign [[some (1 : ℚ), some (0 : ℚ)]]
        [[[none, some (1 : ℚ)], [none, some (1 : ℚ)]]]
      = Except.ok [(some 0, some 1, none, none)] := by
  constructor
  · rfl
  · rfl

theorem foldl_guard_filter {α β : Type} (p : α → Prop) [DecidablePred p]
    (g : β → α → β) (l : List α) (init : β) :
    l.foldl (fun b a => if p a then g b a else b) init
      = (l.filter (fun a => decide (p a))).foldl g init := by
  induction l generalizing init with
  | nil => rfl
  | cons x xs ih =>
    by_cases h : p x
    · simp [h, ih]
    · simp [h, ih]

theorem foldl_best_trace_fst {π : Type} (evalSplit : ℕ → ℚ × π) (l : List ℕ)
    (b : WithBot ℚ × Option π) (t : List ℕ) :
    (l.foldl (fun acc k => (updateBest acc.1 (evalSplit k), acc.2 ++ [k])) (b, t)).1
      = l.foldl (fun b1 k => updateBest b1 (evalSplit k)) b := by
  induction l generalizing b t with
  | nil => rfl
  | cons x xs ih => exact ih (updateBest b (evalSplit x)) (t ++ [x])

theorem foldl_best_trace_snd {π : Type} (evalSplit : ℕ → ℚ × π) (l : List ℕ)
    (b : WithBot ℚ × Option π) (t : List ℕ) :
    (l.foldl (fun acc k => (updateBest acc.1 (evalSplit k), acc.2 ++ [k])) (b, t)).2
      = t ++ l := by
  induction l generalizing b t with
  | nil => simp
  | cons x xs ih =>
    show (xs.foldl _ (updateBest b (evalSplit x), t ++ [x])).2 = t ++ x :: xs
    rw [ih]
    simp

/-- C4: in the split phase with more than one subtype, every previous subtype
whose hard-assigned subject count is ≤ 1 is skipped (it never enters the
evaluated list and the result equals the loop run on the candidates with
count > 1 alone), while every candidate with count > 1 is still evaluated —
the skip removes exactly that one branch of the search, and the loop itself
is total (no error is raised). -/
theorem sustain_C4 (π : Type) (pSeqNorm : List (List ℚ)) (evalSplit : ℕ → ℚ × π)
    (nPrev : ℕ) :
    (growSplitLoop (this_N_cluster pSeqNorm) evalSplit nPrev).2
      = (List.range nPrev).filter (fun k => decide (1 < this_N_cluster pSeqNorm k)) ∧
    (growSplitLoop (this_N_cluster pSeqNorm) evalSplit nPrev).1
      = ((List.range nPrev).filter
            (fun k => decide (1 < this_N_cluster pSeqNorm k))).foldl
          (fun b k => updateBest b (evalSplit k)) (⊥, none) ∧
    (∀ k, this_N_cluster pSeqNorm k ≤ 1 →
        k ∉ (growSplitLoop (this_N_cluster pSeqNorm) evalSplit nPrev).2) := by
  have hg : growSplitLoop (this_N_cluster pSeqNorm) evalSplit nPrev
      = ((List.range nPrev).filter
            (fun k => decide (1 < this_N_cluster pSeqNorm k))).foldl
          (fun acc k => (updateBest acc.1 (evalSplit k), acc.2 ++ [k])) ((⊥, none), []) :=
    foldl_guard_filter _ _ _ _
  refine ⟨?_, ?_, ?_⟩
  · rw [hg, foldl_best_trace_snd]
    simp
  · rw [hg, foldl_best_trace_fst]
  · intro k hk hmem
    rw [hg, foldl_best_trace_snd, List.nil_append, List.mem_filter] at hmem
    have := hmem.2
    simp at this
    omega

/-- Witness for `sustain_C4`: with two subjects both hard-assigned to
previous subtype 1 (label 1), subtype 2 has 0 ≤ 1 assigned subjects and is
skipped — it is absent from the evaluated list. -/
theorem sustain_C4_witness :
    1 ∉ (growSplitLoop (this_N_cluster [[(1 : ℚ), 0], [(1 : ℚ), 0]])
          (fun k => ((k : ℚ), k)) 2).2 :=
  (sustain_C4 ℕ [[(1 : ℚ), 0], [(1 : ℚ), 0]] (fun k => ((k : ℚ), k)) 2).2.2 1 (by decide)

theorem le_foldl_max (xs : List ℚ) : ∀ a : ℚ, a ≤ xs.foldl max a := by
  induction xs with
  | nil => intro a; exact le_refl a
  | cons x t ih => intro a; exact le_trans (le_max_left a x) (ih (max a x))

theorem mem_le_foldl_max (xs : List ℚ) : ∀ (a v : ℚ), v ∈ xs → v ≤ xs.foldl max a := by
  induction xs with
  | nil => intro a v hv; simp at hv
  | cons x t ih =>
    intro a v hv
    rcases List.mem_cons.mp hv with h | h
    · subst h
      exact le_trans (le_max_right a v) (le_foldl_max t (max a v))
    · exact ih (max a x) v h

theorem foldl_max_mem (xs : List ℚ) : ∀ a : ℚ, xs.foldl max a ∈ xs ∨ xs.foldl max a = a := by
  induction xs with
  | nil => intro a; exact Or.inr rfl
  | cons x t ih =>
    intro a
    rcases ih (max a x) with h | h
    · exact Or.inl (List.mem_cons_of_mem x h)
    · rcases max_choice a x with hm | hm
      · exact Or.inr (h.trans hm)
      · refine Or.inl ?_
        show List.foldl max (max a x) t ∈ x :: t
        rw [h, hm]
        exact List.mem_cons_self x t

theorem npMax_mem {l : List ℚ} (h : l ≠ []) : npMax l ∈ l := by
  match l with
  | x :: xs =>
    rw [npMax]
    rcases foldl_max_mem (x :: xs) (List.headD (x :: xs) 0) with hm | hm
    · exact hm
    · rw [hm]
      exact List.mem_cons_self x xs

theorem npArgmax_lt_length {l : List ℚ} (h : l ≠ []) : npArgmax l < l.length :=
  List.findIdx_lt_length_of_exists ⟨npMax l, npMax_mem h, beq_self_eq_true (npMax l)⟩

theorem getD_range_map {γ : Type} (r : ℕ → γ) {K i : ℕ} (h : i < K) (d : γ) :
    ((List.range K).map r).getD i d = r i := by
  have hlen : i < ((List.range K).map r).length := by simpa using h
  rw [List.getD_eq_getElem _ _ hlen]
  simp

theorem headD_filter_range_getD {α : Type} (p : α → Bool) (d : α) :
    ∀ l : List α, (∃ x ∈ l, p x = true) →
      ((List.range l.length).filter (fun i => p (l.getD i d))).headD 0 = l.findIdx p := by
  intro l
  induction l with
  | nil =>
    intro hex
    simp at hex
  | cons x xs ih =>
    intro hex
    rw [List.length_cons, List.range_succ_eq_map]
    by_cases hx : p x = true
    · rw [List.filter_cons_of_pos (by simpa using hx)]
      rw [List.findIdx_cons]
      rw [hx]
      rfl
    · have hex' : ∃ y ∈ xs, p y = true := by
        obtain ⟨y, hy, hpy⟩ := hex
        rcases List.mem_cons.mp hy with h | h
        · exact absurd (h ▸ hpy) hx
        · exact ⟨y, h, hpy⟩
      rw [List.filter_cons_of_neg (by simpa using hx)]
      rw [List.filter_map]
      have hcomp : ((fun i => p ((x :: xs).getD i d)) ∘ Nat.succ)
          = fun i => p (xs.getD i d) := by
        funext i
        simp [List.getD_cons_succ]
      rw [hcomp]
      have hne : (List.range xs.length).filter (fun i => p (xs.getD i d)) ≠ [] := by
        obtain ⟨y, hy, hpy⟩ := hex'
        obtain ⟨i, hi, hgi⟩ := List.mem_iff_getElem.mp hy
        refine List.ne_nil_of_mem (a := i) (List.mem_filter.mpr ⟨List.mem_range.mpr hi, ?_⟩)
        rw [List.getD_eq_getElem _ _ hi, hgi]
        exact hpy
      obtain ⟨a, t, hL⟩ := List.exists_cons_of_ne_nil hne
      have hih := ih hex'
      rw [hL] at hih ⊢
      rw [List.findIdx_cons]
      rw [show p x = false from by revert hx; cases p x <;> simp]
      simp at hih ⊢
      omega

theorem headD_le_of_mem_of_pairwise {L : List ℕ} (hP : L.Pairwise (· < ·)) {i : ℕ}
    (hi : i ∈ L) : L.headD 0 ≤ i := by
  cases L with
  | nil => simp at hi
  | cons a t =>
    rcases List.mem_cons.mp hi with h | h
    · simp [h]
    · have := (List.pairwise_cons.mp hP).1 i h
      simp only [List.headD_cons]
      omega

theorem whereEqMax_pairwise (l : List ℚ) : (whereEqMax l).Pairwise (· < ·) :=
  (List.pairwise_lt_range l.length).filter _

theorem whereEqMax_headD (l : List ℚ) (h : l ≠ []) :
    (whereEqMax l).headD 0 = npArgmax l :=
  headD_filter_range_getD (fun v => v == npMax l) 0 l
    ⟨npMax l, npMax_mem h, beq_self_eq_true (npMax l)⟩

/-- C5 (amended): for `K = N_startpoints ≥ 1` startpoints, `_find_ml` returns
the result of the first startpoint attaining the maximum likelihood
(`np.argmax`), `_find_ml_mixture2` returns the same first-found startpoint's
result (`np.where(.. == max ..)[0][0]`), while `_find_ml_mixture` returns the
results of ALL startpoints tied at the maximum, in ascending startpoint
order — the first-found one is first, but on a tie the result is not a single
startpoint's.  Membership in the tie list is exactly "attains the maximum",
and the head of that list is its least element. -/
theorem sustain_C5_amended (σ φ : Type) (r : ℕ → σ × φ × ℚ) (n : ℕ) :
    find_ml r (n + 1) = r (npArgmax (startpointLLs r (n + 1))) ∧
    find_ml_mixture2 r (n + 1) = r (npArgmax (startpointLLs r (n + 1))) ∧
    find_ml_mixture r (n + 1) = (whereEqMax (startpointLLs r (n + 1))).map r ∧
    npArgmax (startpointLLs r (n + 1)) = (whereEqMax (startpointLLs r (n + 1))).headD 0 ∧
    (∀ i, i ∈ whereEqMax (startpointLLs r (n + 1)) ↔
        (i < n + 1 ∧ (startpointLLs r (n + 1)).getD i 0 = npMax (startpointLLs r (n + 1)))) ∧
    (∀ i, i ∈ whereEqMax (startpointLLs r (n + 1)) →
        (whereEqMax (startpointLLs r (n + 1))).headD 0 ≤ i) := by
  have hLlen : (startpointLLs r (n + 1)).length = n + 1 := by
    simp [startpointLLs, startpointMat]
  have hLne : startpointLLs r (n + 1) ≠ [] := by
    intro h
    rw [h] at hLlen
    simp at hLlen
  have hargLt : npArgmax (startpointLLs r (n + 1)) < n + 1 :=
    lt_of_lt_of_eq (npArgmax_lt_length hLne) hLlen
  have hmem : ∀ i, i ∈ whereEqMax (startpointLLs r (n + 1)) ↔
      (i < n + 1 ∧ (startpointLLs r (n + 1)).getD i 0 = npMax (startpointLLs r (n + 1))) := by
    intro i
    simp [whereEqMax, List.mem_filter, List.mem_range, hLlen]
  refine ⟨?_, ?_, ?_, ?_, hmem, ?_⟩
  · show ((List.range (n + 1)).map r).getD (npArgmax (startpointLLs r (n + 1))) (r 0)
        = r (npArgmax (startpointLLs r (n + 1)))
    exact getD_range_map r hargLt (r 0)
  · show ((List.range (n + 1)).map r).getD
        ((whereEqMax (startpointLLs r (n + 1))).headD 0) (r 0)
        = r (npArgmax (startpointLLs r (n + 1)))
    rw [whereEqMax_headD _ hLne]
    exact getD_range_map r hargLt (r 0)
  · show (whereEqMax (startpointLLs r (n + 1))).map
        (fun i => ((List.range (n + 1)).map r).getD i (r 0))
        = (whereEqMax (startpointLLs r (n + 1))).map r
    refine List.map_congr_left ?_
    intro i hi
    exact getD_range_map r ((hmem i).mp hi).1 (r 0)
  · exact (whereEqMax_headD _ hLne).symm
  · intro i hi
    exact headD_le_of_mem_of_pairwise (whereEqMax_pairwise _) hi

/-- Counterexample to C5 as stated: with 2 startpoints both reaching
likelihood 0, `_find_ml_mixture`'s selection keeps BOTH tied startpoints —
the returned stack has 2 entries, not the single first-found startpoint's
result. -/
theorem sustain_C5_counterexample :
    find_ml_mixture (fun _ => ((), (), (0 : ℚ))) 2 ≠ [((), (), (0 : ℚ))] ∧
    (find_ml_mixture (fun _ => ((), (), (0 : ℚ))) 2).length = 2 := by
  have h : find_ml_mixture (fun _ => ((), (), (0 : ℚ))) 2
      = [((), (), (0 : ℚ)), ((), (), (0 : ℚ))] := rfl
  rw [h]
  refine ⟨?_, rfl⟩
  intro hcontra
  exact absurd (congrArg List.length hcontra) (by simp)

/-- Witness for `sustain_C5_amended`: on the two-way tie above, index 1 is in
the tie list and the head of the tie list (the first-found index 0) is ≤ 1. -/
theorem sustain_C5_witness :
    (whereEqMax (startpointLLs (fun _ => ((), (), (0 : ℚ))) 2)).headD 0 ≤ 1 :=
  (sustain_C5_amended Unit Unit (fun _ => ((), (), (0 : ℚ))) 1).2.2.2.2.2 1
    (by rw [show whereEqMax (startpointLLs (fun _ => ((), (), (0 : ℚ))) 2) = [0, 1] from rfl]
        simp)

theorem ite_lt_eq_max (v c : ℚ) : (if v < c then c else v) = max c v := by
  rcases lt_or_le v c with h | h
  · rw [if_pos h, max_eq_left (le_of_lt h)]
  · rw [if_neg (not_lt.mpr h), max_eq_right h]

/-- C7: `_optimise_mcmc_settings` always runs exactly 3 tuning passes of
10,000 exploratory steps each (first conjunct: the fold over the 3 passes is
the 3-fold composition of `tunePass`, whose only chain call is
`mcmc 10000 …`); the sequence scale a pass produces is the Bessel-corrected
(N−1) standard deviation, across the pass's draws, of each stage's
inverse-permutation position per subtype with every entry floored at exactly
0.01 (`max (1/100) ·`), and the fraction scale is the Bessel-corrected
standard deviation of the sampled fractions (no floor); the production chain
of `_estimate_uncertainty_sustain_model` receives precisely the final pass's
scales. -/
theorem sustain_C7 (α β : Type) (sqrt : ℚ → ℚ) (Nst NMCMC : ℕ)
    (mcmc : ℕ → (ℕ → ℕ → ℚ) → (ℕ → ℚ) → α × (ℕ → ℕ → ℕ → ℕ) × (ℕ → ℕ → ℚ) × β) :
    optimise_mcmc_settings sqrt Nst mcmc
      = tunePass sqrt Nst mcmc (tunePass sqrt Nst mcmc (tunePass sqrt Nst mcmc
          (fun _ _ => 1, fun _ => 1 / 100))) ∧
    (∀ sig s j, (tunePass sqrt Nst mcmc sig).1 s j
        = max (1 / 100) (besselStd sqrt ((List.range 10000).map
            (fun t => ((scatterInv Nst
              (fun i => (mcmc 10000 sig.1 sig.2).2.1 s i t) j : ℕ) : ℚ))))) ∧
    (∀ sig s j, 1 / 100 ≤ (tunePass sqrt Nst mcmc sig).1 s j) ∧
    (∀ sig s, (tunePass sqrt Nst mcmc sig).2 s
        = besselStd sqrt ((List.range 10000).map
            (fun t => (mcmc 10000 sig.1 sig.2).2.2.1 s t))) ∧
    estimate_uncertainty_sustain_model sqrt Nst mcmc NMCMC
      = mcmc NMCMC (optimise_mcmc_settings sqrt Nst mcmc).1
          (optimise_mcmc_settings sqrt Nst mcmc).2 := by
  have hmax : ∀ sig s j, (tunePass sqrt Nst mcmc sig).1 s j
      = max (1 / 100) (besselStd sqrt ((List.range 10000).map
          (fun t => ((scatterInv Nst
            (fun i => (mcmc 10000 sig.1 sig.2).2.1 s i t) j : ℕ) : ℚ)))) := by
    intro sig s j
    show (if besselStd sqrt ((List.range 10000).map
          (fun t => ((scatterInv Nst
            (fun i => (mcmc 10000 sig.1 sig.2).2.1 s i t) j : ℕ) : ℚ))) < 1 / 100
        then 1 / 100
        else besselStd sqrt ((List.range 10000).map
          (fun t => ((scatterInv Nst
            (fun i => (mcmc 10000 sig.1 sig.2).2.1 s i t) j : ℕ) : ℚ)))) = _
    rw [ite_lt_eq_max]
  refine ⟨rfl, hmax, ?_, fun sig s => rfl, rfl⟩
  intro sig s j
  rw [hmax sig s j]
  exact le_max_left _ _
